import Mathlib

/-!
Verification of the elprisetjustnu price display scripts
(`examples/print_elec_prices.py` and `examples/power_plot.py`).

Shallow embedding conventions:
* Python strings are `List Char` (`Str`); Python string comparison is the
  lexicographic order on `List Char` by code point, which is the
  `LinearOrder (List Char)` instance.
* Python floats are modelled as exact rationals `ℚ`; `int(x)` is truncation
  toward zero (`pyInt`), `//` on non-negative integers is `Nat` division.
* A Python division that can raise `ZeroDivisionError` is modelled with
  `divQ? : ℚ → ℚ → Option ℚ`; an uncaught exception makes the enclosing
  function return `none`.
* A dict lookup on a possibly missing key (`entry['time_start']`) is a
  lookup in an `Option`-valued field; a `KeyError` propagates as `none`.
-/

/-! ## Definitions: the shallow embedding of the two scripts -/

abbrev Str := List Char

/-- One raw API sample as a Python dict: either field may be missing
(`entry['time_start']` / `entry['SEK_per_kWh']` raise `KeyError` when absent). -/
structure RawEntry where
  time_start : Option Str
  SEK_per_kWh : Option ℚ
deriving DecidableEq, Repr

/-- One consolidated hourly price, as built by `fetch_and_process_data`. -/
structure PriceHour where
  time_start : Str
  SEK_per_kWh : ℚ
deriving DecidableEq, Repr

/-- Python `t[:13]`, the hour key "YYYY-MM-DDTHH". -/
def hourKey (t : Str) : Str := t.take 13

/-- Python `int(q)` for a float: truncation toward zero. -/
def pyInt (q : ℚ) : ℤ := if q < 0 then -(⌊-q⌋) else ⌊q⌋

/-- A Python float division: `none` models `ZeroDivisionError`. -/
def divQ? (a b : ℚ) : Option ℚ := if b = 0 then none else some (a / b)

/-- The key and price of a well-formed entry; `none` when a field is missing. -/
def sampleOf (e : RawEntry) : Option (Str × ℚ) :=
  match e.time_start, e.SEK_per_kWh with
  | some t, some p => some (hourKey t, p)
  | _, _ => none

/-- The grouping dict `hour_prices` of `fetch_and_process_data`: an association
list from hour key to the prices appended for that hour, in insertion order. -/
abbrev Grouping := List (Str × List ℚ)

/-- One loop iteration of the grouping loop: `hour_prices[hour].append(price)`,
creating the key at the end of the dict when absent (Python dicts preserve key
insertion order). -/
def addSample (m : Grouping) (h : Str) (p : ℚ) : Grouping :=
  match m with
  | [] => [(h, [p])]
  | (k, ps) :: rest =>
      if k = h then (k, ps ++ [p]) :: rest else (k, ps) :: addSample rest h p

/-- Python `hour_prices[hour]` for a key known to be present (returns `[]` on a
missing key, a case that never arises for keys of the dict). -/
def lookupKey (m : Grouping) (h : Str) : List ℚ :=
  match m with
  | [] => []
  | (k, ps) :: rest => if k = h then ps else lookupKey rest h

/-- Process one entry of the grouping loop body: field lookups first
(`KeyError` aborts, giving `none`), then the append. -/
def addEntry (m : Grouping) (e : RawEntry) : Option Grouping :=
  (sampleOf e).map fun kp => addSample m kp.1 kp.2

/-- The grouping loop of `fetch_and_process_data` starting from dict `m`;
`none` models the uncaught `KeyError` of a malformed entry. -/
def groupFrom (m : Grouping) : List RawEntry → Option Grouping
  | [] => some m
  | e :: es =>
      match addEntry m e with
      | some m1 => groupFrom m1 es
      | none => none

/-- The whole grouping loop (lines 66-72), starting from the empty dict. -/
def groupByHour (es : List RawEntry) : Option Grouping := groupFrom [] es

/-- Arithmetic mean of a list of rationals, `sum(prices) / len(prices)`. -/
def mean (l : List ℚ) : ℚ := l.sum / (l.length : ℚ)

/-- The consolidation of `fetch_and_process_data` (lines 66-79): group by hour
key, then emit one entry per key in `sorted(hour_prices)` order, with the
averaged price and `time_start = hour + ":00:00"`. -/
def consolidate (es : List RawEntry) : Option (List PriceHour) :=
  (groupByHour es).map fun m =>
    ((m.map Prod.fst).insertionSort (· ≤ ·)).map fun h =>
      let ps := lookupKey m h
      { time_start := h ++ (":00:00").data, SEK_per_kWh := mean ps }

/-- The prices of the input samples whose hour key is `h`, in input order. -/
def samplesFor (h : Str) (es : List RawEntry) : List ℚ :=
  es.filterMap fun e =>
    (sampleOf e).bind fun kp => if kp.1 = h then some kp.2 else none

/-- The hour keys contributed by the well-formed input samples, in input order. -/
def inputKeys (es : List RawEntry) : List Str :=
  es.filterMap fun e => (sampleOf e).map Prod.fst

/-- An entry is well-formed when both dict fields are present. -/
def wfEntry (e : RawEntry) : Prop := (sampleOf e).isSome

instance (e : RawEntry) : Decidable (wfEntry e) := by
  unfold wfEntry; infer_instance

/-- The sorted key list that `sorted(hour_prices)` iterates over. -/
def sortedKeys (m : Grouping) : List Str := (m.map Prod.fst).insertionSort (· ≤ ·)

/-- The `PriceHour` emitted for key `h` of dict `m`. -/
def entryFor (m : Grouping) (h : Str) : PriceHour :=
  { time_start := h ++ (":00:00").data, SEK_per_kWh := mean (lookupKey m h) }

/-- Display bounds of the Presto at `full_res` (480x480). -/
def WIDTH : ℕ := 480

/-- Display height, same resolution. -/
def HEIGHT : ℕ := 480

/-- Python `min(...)` over a non-empty collection, first element `p`. -/
def listMin (p : ℚ) (ps : List ℚ) : ℚ := ps.foldl min p

/-- Python `max(...)` over a non-empty collection, first element `p`. -/
def listMax (p : ℚ) (ps : List ℚ) : ℚ := ps.foldl max p

/-- The color branch of `display_prices` (lines 129-137): from the normalized
price, the green-to-red ramp with `int()` truncation. -/
def colorRamp (norm : ℚ) : ℤ × ℤ × ℤ :=
  if norm ≤ 1/2 then (pyInt (510 * norm), 255, 0)
  else (255, pyInt (255 - 510 * (norm - 1/2)), 0)

/-- The guarded normalization of `display_prices` (lines 124-127): divides by
`max_price - min_price` only when `max_price > min_price`, else `norm = 0`. -/
def normFor? (price minP maxP : ℚ) : Option ℚ :=
  if maxP > minP then divQ? (price - minP) (maxP - minP) else some 0

/-- The whole per-entry color computation of `display_prices`. -/
def colorFor? (price minP maxP : ℚ) : Option (ℤ × ℤ × ℤ) :=
  (normFor? price minP maxP).map colorRamp

/-- The color computations performed by `display_prices` (lines 86-173): on an
empty series the "No data found" branch computes nothing; otherwise min/max
over all prices, then one ramp color per displayed entry. (The on-screen skip
of rows below the visible height only removes color computations, so this is
a superset of the computations the code performs; text drawing is I/O and is
not modelled.) -/
def displayPricesColors (allPrices todayE tomorrowE : List PriceHour) :
    Option (List (ℤ × ℤ × ℤ)) :=
  match allPrices.map PriceHour.SEK_per_kWh with
  | [] => some []
  | p :: ps =>
      (todayE ++ tomorrowE).mapM fun e =>
        colorFor? e.SEK_per_kWh (listMin p ps) (listMax p ps)

/-- The per-bar normalized ratios of `draw_gui` in `power_plot.py` (lines
85-89): both the bar height and the color band divide by
`max_p - min_p + 0.1`. On an empty price list the code takes the
"Data Unavailable" branch and computes nothing. -/
def draw_gui_ratios (prices : List (ℕ × ℚ)) : Option (List ℚ) :=
  match prices.map Prod.snd with
  | [] => some []
  | v :: vs =>
      prices.mapM fun hp =>
        divQ? (hp.2 - listMin v vs) (listMax v vs - listMin v vs + 1/10)

/-- The axis-tick loop of `display_plot` (lines 193-198): six tick values
`min_p + i * (max_p - min_p) / num_ticks` with `num_ticks = 5`. -/
def plotTicks (minP maxP : ℚ) : Option (List ℚ) :=
  (List.range (5 + 1)).mapM fun i : ℕ =>
    (divQ? ((i : ℚ) * (maxP - minP)) 5).map fun d => minP + d

/-- The plot-line loop of `display_plot` (lines 200-207): one line segment per
consecutive pair of prices; the y-coordinates divide by `max_p - min_p`
unguarded, the x-coordinates use integer floor division by
`len(prices) - 1`. -/
def plotSegs (prices : List ℚ) (minP maxP : ℚ) :
    Option (List (ℤ × ℤ × ℤ × ℤ)) :=
  (List.range (prices.length - 1)).mapM fun i => do
    let q1 ← divQ? (prices.getD i 0 - minP) (maxP - minP)
    let q2 ← divQ? (prices.getD (i + 1) 0 - minP) (maxP - minP)
    pure (((60 + i * (WIDTH - 60) / (prices.length - 1) : ℕ) : ℤ),
      ((10 + (HEIGHT - 20) : ℕ) : ℤ) - pyInt (q1 * ((HEIGHT : ℚ) - 20)),
      ((60 + (i + 1) * (WIDTH - 60) / (prices.length - 1) : ℕ) : ℤ),
      ((10 + (HEIGHT - 20) : ℕ) : ℤ) - pyInt (q2 * ((HEIGHT : ℚ) - 20)))

/-- The numeric computations of `display_plot` (lines 175-207): `min`/`max`
of the prices (a `ValueError` on an empty series, modelled as `none`), then
the axis ticks and the plot-line segments. -/
def displayPlot (allPrices : List PriceHour) :
    Option (List ℚ × List (ℤ × ℤ × ℤ × ℤ)) :=
  match allPrices.map PriceHour.SEK_per_kWh with
  | [] => none
  | p :: ps => do
      let ticks ← plotTicks (listMin p ps) (listMax p ps)
      let segs ← plotSegs (p :: ps) (listMin p ps) (listMax p ps)
      pure (ticks, segs)

/-- Outcome of one HTTP fetch in `get_data`: a 200 response with parsed JSON,
a non-200 status, or a raised exception (network or parse failure). -/
inductive FetchResult where
  | success (entries : List RawEntry)
  | httpError (code : ℕ)
  | exn
deriving DecidableEq

/-- The `get_data` function (lines 32-48): returns the parsed entries on a 200
response and `[]` on an HTTP error or exception (the `except` branch logs and
falls through to `return []`). -/
def get_data : FetchResult → List RawEntry
  | FetchResult.success es => es
  | FetchResult.httpError _ => []
  | FetchResult.exn => []

/-- The `fetch_and_process_data` function (lines 50-84): fetch both dates,
concatenate, and consolidate (display status text is I/O and not modelled). -/
def fetch_and_process_data (ft fm : FetchResult) : Option (List PriceHour) :=
  consolidate (get_data ft ++ get_data fm)

/-- The two view states of the main loop: the listing (`'prices'`) and the
line plot (`'plot'`). -/
inductive ViewState where
  | prices
  | plot
deriving DecidableEq, Repr

/-- One polled touch sample: `presto.touch_a.touched / .x / .y`. -/
structure TouchSample where
  touched : Bool
  x : ℤ
  y : ℤ
deriving DecidableEq, Repr

/-- The mutable state of the `run` loop (lines 233-247): current view state,
previous touch flag, recorded touch-down point, and the stored series with its
day partition. -/
structure LoopState where
  state : ViewState
  last_touched : Bool
  start : Option (ℤ × ℤ)
  all_prices : List PriceHour
  today_entries : List PriceHour
  tomorrow_entries : List PriceHour
deriving DecidableEq, Repr

/-- The swipe classifier of line 264, `distance > 30 and 60 <= angle <= 120`,
stated exactly over the integer pixel displacement: with
`distance = sqrt(dx^2 + dy^2)` and `angle = atan2(dy, dx)` in degrees
normalized to `[0, 360)`, `distance > 30` holds iff `dx^2 + dy^2 > 900`, and
`60 <= angle <= 120` holds iff `dy > 0` and `3*dx^2 <= dy^2` (the closed
sector between the 60-degree and 120-degree rays, whose boundary lines are
`dy = ±sqrt(3)·dx`; squaring is exact on integers). -/
def isRefreshSwipe (dx dy : ℤ) : Bool :=
  decide (900 < dx ^ 2 + dy ^ 2) && (decide (0 < dy) && decide (3 * dx ^ 2 ≤ dy ^ 2))

/-- Python `s.startswith(pre)`: `startsWith pre s`. -/
def startsWith : Str → Str → Bool
  | [], _ => true
  | _ :: _, [] => false
  | c :: cs, d :: ds => c == d && startsWith cs ds

/-- The day partition of lines 236-237 and 270-271: the entries whose
`time_start` starts with the given ISO date prefix. -/
def partitionDay (iso : Str) (prices : List PriceHour) : List PriceHour :=
  prices.filter fun e => startsWith iso e.time_start

/-- Result of one loop iteration: the next state and how many
`fetch_and_process_data` calls the iteration made. -/
structure StepResult where
  st : LoopState
  refetches : ℕ
deriving DecidableEq, Repr

/-- One iteration of the `while True` loop of `run` (lines 248-290), as a
function of the polled touch sample; `ft`/`fm` are the outcomes the two
fetches would have if the iteration refreshes. On a touch-down edge the start
point is recorded AND the view toggles (lines 278-287 run in the same
iteration); on a touch-up edge a qualifying swipe refetches, repartitions,
renders the listing and forces the `'prices'` state. `none` models an
uncaught exception (a `KeyError` from consolidation of malformed data, or a
division error in `display_plot`). -/
def loopStep (ft fm : FetchResult) (todayIso tomorrowIso : Str)
    (ls : LoopState) (s : TouchSample) : Option StepResult := do
  let touched := s.touched
  let edge ←
    if touched && !ls.last_touched then
      pure ({ ls with start := some (s.x, s.y) }, (0 : ℕ))
    else if !touched && ls.last_touched then
      match ls.start with
      | some sxy =>
          let dx := s.x - sxy.1
          let dy := s.y - sxy.2
          if isRefreshSwipe dx dy then do
            let newPrices ← fetch_and_process_data ft fm
            let tE := partitionDay todayIso newPrices
            let mE := partitionDay tomorrowIso newPrices
            let _ ← displayPricesColors newPrices tE mE
            pure ({ ls with
                    state := ViewState.prices
                    start := none
                    all_prices := newPrices
                    today_entries := tE
                    tomorrow_entries := mE }, (1 : ℕ))
          else
            pure ({ ls with start := none }, (0 : ℕ))
      | none => pure ({ ls with start := none }, (0 : ℕ))
    else
      pure (ls, (0 : ℕ))
  let ls1 := edge.1
  let ls2 ←
    match ls1.state with
    | ViewState.prices =>
        if touched && !ls.last_touched then do
          let _ ← displayPlot ls1.all_prices
          pure { ls1 with state := ViewState.plot }
        else pure ls1
    | ViewState.plot =>
        if touched && !ls.last_touched then do
          let _ ← displayPricesColors ls1.all_prices ls1.today_entries
            ls1.tomorrow_entries
          pure { ls1 with state := ViewState.prices }
        else pure ls1
  pure { st := { ls2 with last_touched := touched }, refetches := edge.2 }

/-- A full touch-down/touch-up cycle: two consecutive loop iterations, with
the total number of refetches made. -/
def runCycle (ft fm : FetchResult) (todayIso tomorrowIso : Str)
    (ls : LoopState) (down up : TouchSample) : Option (LoopState × ℕ) := do
  let r1 ← loopStep ft fm todayIso tomorrowIso ls down
  let r2 ← loopStep ft fm todayIso tomorrowIso r1.st up
  pure (r2.st, r1.refetches + r2.refetches)

/-- Build a concrete consolidated entry. -/
def mkPH (t : String) (q : ℚ) : PriceHour :=
  { time_start := t.data, SEK_per_kWh := q }

/-- Build a concrete well-formed raw sample. -/
def mkRaw (t : String) (q : ℚ) : RawEntry :=
  { time_start := some t.data, SEK_per_kWh := some q }

/-- The ramp as the spec's words state it (§4.3, C5): `round` in place of the
code's `int()` truncation; kept for comparison with `colorRamp`. -/
def colorRampSpecRound (norm : ℚ) : ℤ × ℤ × ℤ :=
  if norm ≤ 1/2 then (round (510 * norm), 255, 0)
  else (255, round (255 - 510 * (norm - 1/2)), 0)

/-- A concrete non-flat two-hour series used by the state-machine claims. -/
def seriesAB : List PriceHour :=
  [mkPH ("2024-01-20T21:00:00") 1, mkPH ("2024-01-20T22:00:00") 2]

/-- A loop state in the listing view holding `seriesAB`, idle touch. -/
def lsListing : LoopState :=
  { state := ViewState.prices, last_touched := false, start := none,
    all_prices := seriesAB, today_entries := seriesAB, tomorrow_entries := [] }

/-- The same state in the plot view. -/
def lsPlotV : LoopState := { lsListing with state := ViewState.plot }

/-- Reference ISO dates for the day partition. -/
def isoToday : Str := ("2024-01-20").data

/-- Tomorrow's ISO date. -/
def isoTomorrow : Str := ("2024-01-21").data

/-- A touch-down sample at pixel (x, y). -/
def touchDown (x y : ℤ) : TouchSample := { touched := true, x := x, y := y }

/-- A touch-up sample at pixel (x, y). -/
def touchUp (x y : ℤ) : TouchSample := { touched := false, x := x, y := y }

/-- The machine state left behind by a refresh whose fetches both failed. -/
def lsEmptyAfter : LoopState :=
  { state := ViewState.prices, last_touched := false, start := none,
    all_prices := [], today_entries := [], tomorrow_entries := [] }

/-- A malformed raw sample: the `time_start` key is missing. -/
def malEntry : RawEntry := { time_start := none, SEK_per_kWh := some 1 }

/-- The spec's worked example input (three raw samples, two of them in the
same hour). -/
def esExample : List RawEntry :=
  [mkRaw ("2024-01-20T21:00") 1, mkRaw ("2024-01-20T21:30") 2,
   mkRaw ("2024-01-20T22:00") 3]

/-- The consolidated series of `esExample`. -/
def outExample : List PriceHour :=
  [mkPH ("2024-01-20T21:00:00") (3/2), mkPH ("2024-01-20T22:00:00") 3]

/-! ## Theorems -/

theorem lookupKey_addSample (m : Grouping) (h : Str) (p : ℚ) (h' : Str) :
    lookupKey (addSample m h p) h' =
      if h' = h then lookupKey m h' ++ [p] else lookupKey m h' := by
  induction m with
  | nil =>
      by_cases hh : h' = h
      · subst hh; simp [addSample, lookupKey]
      · have hh2 : ¬ h = h' := fun c => hh c.symm
        simp [addSample, lookupKey, hh, hh2]
  | cons kp rest ih =>
      obtain ⟨k, ps⟩ := kp
      by_cases hk : k = h
      · subst hk
        by_cases hh : h' = k
        · subst hh; simp [addSample, lookupKey]
        · have hh2 : ¬ k = h' := fun c => hh c.symm
          simp [addSample, lookupKey, hh, hh2]
      · by_cases hh : k = h'
        · subst hh
          simp [addSample, lookupKey, hk]
        · simp [addSample, lookupKey, hk, hh, ih]

theorem keys_addSample (m : Grouping) (h : Str) (p : ℚ) :
    (addSample m h p).map Prod.fst =
      if h ∈ m.map Prod.fst then m.map Prod.fst else m.map Prod.fst ++ [h] := by
  induction m with
  | nil => simp [addSample]
  | cons kp rest ih =>
      obtain ⟨k, ps⟩ := kp
      by_cases hk : k = h
      · subst hk
        simp [addSample]
      · have : ¬ h = k := fun hh => hk hh.symm
        by_cases hm : h ∈ rest.map Prod.fst <;>
          simp [addSample, hk, this, hm, ih]

theorem nodup_keys_addSample (m : Grouping) (h : Str) (p : ℚ)
    (hm : (m.map Prod.fst).Nodup) : ((addSample m h p).map Prod.fst).Nodup := by
  rw [keys_addSample]
  by_cases hmem : h ∈ m.map Prod.fst
  · simpa [hmem] using hm
  · simp only [hmem, if_false]
    refine List.Nodup.append hm (List.nodup_singleton h) ?_
    intro a ha hb
    rw [List.mem_singleton] at hb
    subst hb
    exact hmem ha

theorem samplesFor_cons (h : Str) (e : RawEntry) (es : List RawEntry) :
    samplesFor h (e :: es) =
      (match sampleOf e with
        | some kp => if kp.1 = h then [kp.2] else []
        | none => []) ++ samplesFor h es := by
  cases hs : sampleOf e with
  | none => simp [samplesFor, hs]
  | some kp =>
      by_cases hk : kp.1 = h <;> simp [samplesFor, hs, hk]

theorem inputKeys_cons (e : RawEntry) (es : List RawEntry) :
    inputKeys (e :: es) =
      (match sampleOf e with
        | some kp => [kp.1]
        | none => []) ++ inputKeys es := by
  cases hs : sampleOf e with
  | none => simp [inputKeys, hs]
  | some kp => simp [inputKeys, hs]

/-- Main invariant of the grouping loop: starting from dict `m`, a successful
run extends every key's samples by exactly the matching input samples, keeps
the keys nodup, and the final key set is the union of old and input keys. -/
theorem groupFrom_spec : ∀ (es : List RawEntry) (m m' : Grouping),
    groupFrom m es = some m' →
    (∀ h, lookupKey m' h = lookupKey m h ++ samplesFor h es) ∧
    ((m.map Prod.fst).Nodup → (m'.map Prod.fst).Nodup) ∧
    (∀ h, h ∈ m'.map Prod.fst ↔ h ∈ m.map Prod.fst ∨ h ∈ inputKeys es) := by
  intro es
  induction es with
  | nil =>
      intro m m' hrun
      simp only [groupFrom] at hrun
      cases hrun
      refine ⟨fun h => by simp [samplesFor], fun h => h, fun h => by simp [inputKeys]⟩
  | cons e es ih =>
      intro m m' hrun
      simp only [groupFrom] at hrun
      cases hkp : sampleOf e with
      | none => rw [show addEntry m e = none from by simp [addEntry, hkp]] at hrun; cases hrun
      | some kp =>
          rw [show addEntry m e = some (addSample m kp.1 kp.2) from by
            simp [addEntry, hkp]] at hrun
          obtain ⟨ih1, ih2, ih3⟩ := ih (addSample m kp.1 kp.2) m' hrun
          refine ⟨fun h => ?_, fun hnd => ih2 (nodup_keys_addSample _ _ _ hnd), fun h => ?_⟩
          · rw [ih1 h, lookupKey_addSample, samplesFor_cons, hkp]
            by_cases hh : h = kp.1
            · subst hh
              simp [List.append_assoc]
            · have : ¬ kp.1 = h := fun hc => hh hc.symm
              simp [hh, this]
          · rw [ih3 h, keys_addSample, inputKeys_cons, hkp]
            by_cases hmem : kp.1 ∈ m.map Prod.fst
            · simp only [hmem, if_true, List.mem_append]
              constructor
              · rintro (hl | hr)
                · exact Or.inl hl
                · exact Or.inr (Or.inr hr)
              · rintro (hl | hc | hr)
                · exact Or.inl hl
                · rw [List.mem_singleton] at hc; subst hc; exact Or.inl hmem
                · exact Or.inr hr
            · simp only [hmem, if_false, List.mem_append, List.mem_singleton]
              tauto

/-- A malformed entry anywhere in the input aborts the whole grouping loop. -/
theorem groupFrom_none_of_malformed : ∀ (es : List RawEntry) (m : Grouping),
    (∃ e ∈ es, ¬ wfEntry e) → groupFrom m es = none := by
  intro es
  induction es with
  | nil => intro m h; simp at h
  | cons e es ih =>
      intro m h
      obtain ⟨e', he', hbad⟩ := h
      rcases List.mem_cons.mp he' with he | he
      · subst he
        have : sampleOf e' = none := by
          cases hs : sampleOf e' with
          | none => rfl
          | some kp => exact absurd (by simp [wfEntry, hs]) hbad
        simp [groupFrom, addEntry, this]
      · cases hadd : addEntry m e with
        | none => simp [groupFrom, hadd]
        | some m1 => simp [groupFrom, hadd, ih m1 ⟨e', he, hbad⟩]

/-- When every entry is well-formed the grouping loop succeeds. -/
theorem groupFrom_isSome_of_wf : ∀ (es : List RawEntry) (m : Grouping),
    (∀ e ∈ es, wfEntry e) → (groupFrom m es).isSome := by
  intro es
  induction es with
  | nil => intro m _; simp [groupFrom]
  | cons e es ih =>
      intro m h
      have he : wfEntry e := h e (by simp)
      cases hs : sampleOf e with
      | none => simp [wfEntry, hs] at he
      | some kp =>
          have : addEntry m e = some (addSample m kp.1 kp.2) := by
            simp [addEntry, hs]
          simp only [groupFrom, this]
          exact ih _ (fun e' he' => h e' (by simp [he']))

theorem consolidate_eq_some (es : List RawEntry) (out : List PriceHour)
    (hc : consolidate es = some out) :
    ∃ m, groupByHour es = some m ∧ out = (sortedKeys m).map (entryFor m) := by
  cases hg : groupByHour es with
  | none => rw [consolidate, hg] at hc; cases hc
  | some m =>
      rw [consolidate, hg] at hc
      refine ⟨m, rfl, ?_⟩
      cases hc
      rfl

theorem sampleOf_eq_some {e : RawEntry} {kp : Str × ℚ} (hs : sampleOf e = some kp) :
    ∃ t p, e.time_start = some t ∧ e.SEK_per_kWh = some p ∧ kp = (hourKey t, p) := by
  cases e with
  | mk ts pr =>
      cases ts with
      | none => simp [sampleOf] at hs
      | some t =>
          cases pr with
          | none => simp [sampleOf] at hs
          | some p =>
              refine ⟨t, p, rfl, rfl, ?_⟩
              simp [sampleOf] at hs
              exact hs.symm

theorem mem_inputKeys {k : Str} {es : List RawEntry} :
    k ∈ inputKeys es ↔ ∃ e ∈ es, ∃ t p, e.time_start = some t ∧
      e.SEK_per_kWh = some p ∧ k = hourKey t := by
  constructor
  · intro hk
    rw [inputKeys, List.mem_filterMap] at hk
    obtain ⟨e, he, hmap⟩ := hk
    cases hs : sampleOf e with
    | none => rw [hs] at hmap; cases hmap
    | some kp =>
        rw [hs] at hmap
        obtain ⟨t, p, ht, hp, hkp⟩ := sampleOf_eq_some hs
        refine ⟨e, he, t, p, ht, hp, ?_⟩
        cases hmap
        rw [hkp]
  · rintro ⟨e, he, t, p, ht, hp, hk⟩
    rw [inputKeys, List.mem_filterMap]
    refine ⟨e, he, ?_⟩
    have : sampleOf e = some (hourKey t, p) := by
      cases e with
      | mk ts pr => cases ht; cases hp; rfl
    rw [this, hk]
    rfl

/-- The three facts the claims need about a successful `groupByHour` run. -/
theorem groupByHour_facts (es : List RawEntry) (m : Grouping)
    (hg : groupByHour es = some m) :
    (∀ h, lookupKey m h = samplesFor h es) ∧
    (m.map Prod.fst).Nodup ∧
    (∀ h, h ∈ m.map Prod.fst ↔ h ∈ inputKeys es) := by
  obtain ⟨h1, h2, h3⟩ := groupFrom_spec es [] m hg
  refine ⟨fun h => by simpa [lookupKey] using h1 h, h2 (by simp), fun h => ?_⟩
  rw [h3 h]
  simp

/-- C1. For every input sequence of raw samples on which consolidation
succeeds, the consolidated series contains exactly one entry per distinct hour
key present in the input (no time_start is duplicated, and the hour keys that
occur as `k ++ ":00:00"` in the output are exactly the input hour keys), and
every output entry's price is the arithmetic mean of the `SEK_per_kWh` values
of the input samples sharing its hour key. -/
theorem consolidate_one_entry_per_hour_with_mean (es : List RawEntry)
    (out : List PriceHour) (hc : consolidate es = some out) :
    (out.map PriceHour.time_start).Nodup ∧
    (∀ k : Str, (∃ ph ∈ out, ph.time_start = k ++ (":00:00").data) ↔
      k ∈ inputKeys es) ∧
    (∀ ph ∈ out, ∃ k : Str, ph.time_start = k ++ (":00:00").data ∧
      k ∈ inputKeys es ∧ ph.SEK_per_kWh = mean (samplesFor k es)) := by
  obtain ⟨m, hg, hout⟩ := consolidate_eq_some es out hc
  obtain ⟨hlook, hnd, hmem⟩ := groupByHour_facts es m hg
  have hperm : List.Perm (sortedKeys m) (m.map Prod.fst) :=
    List.perm_insertionSort _ _
  have hsknd : (sortedKeys m).Nodup := hperm.nodup_iff.mpr hnd
  have hskmem : ∀ k, k ∈ sortedKeys m ↔ k ∈ inputKeys es := fun k =>
    (hperm.mem_iff).trans (hmem k)
  subst hout
  refine ⟨?_, fun k => ⟨?_, ?_⟩, fun ph hph => ?_⟩
  · rw [List.map_map]
    have : (PriceHour.time_start ∘ entryFor m) = fun h => h ++ (":00:00").data := by
      funext h
      rfl
    rw [this]
    exact hsknd.map (List.append_left_injective _)
  · rintro ⟨ph, hph, hts⟩
    rw [List.mem_map] at hph
    obtain ⟨k', hk', hphk⟩ := hph
    have : k' ++ (":00:00").data = k ++ (":00:00").data := by
      rw [← hts, ← hphk]
      rfl
    have hkk : k' = k := List.append_left_injective _ this
    rw [← hkk]
    exact (hskmem k').mp hk'
  · intro hk
    refine ⟨entryFor m k, List.mem_map_of_mem _ ((hskmem k).mpr hk), rfl⟩
  · rw [List.mem_map] at hph
    obtain ⟨k, hk, hphk⟩ := hph
    refine ⟨k, ?_, (hskmem k).mp hk, ?_⟩
    · rw [← hphk]; rfl
    · rw [← hphk, entryFor, hlook k]

/-- C4. For every input on which consolidation succeeds whose timestamps are
at least 13 characters long (the fixed-width zero-padded ISO prefix), the
consolidated series is sorted non-decreasingly by hour key (the 13-character
prefix of `time_start`), regardless of input order; the comparison is
lexicographic string comparison by code point. -/
theorem consolidate_sorted_by_hour_key (es : List RawEntry)
    (out : List PriceHour) (hc : consolidate es = some out)
    (hlen : ∀ e ∈ es, ∀ t, e.time_start = some t → 13 ≤ t.length) :
    (out.map fun ph => ph.time_start.take 13).Sorted (· ≤ ·) := by
  obtain ⟨m, hg, hout⟩ := consolidate_eq_some es out hc
  obtain ⟨hlook, hnd, hmem⟩ := groupByHour_facts es m hg
  subst hout
  rw [List.map_map]
  have hlen13 : ∀ h ∈ sortedKeys m, h.length = 13 := by
    intro h hh
    have hperm : List.Perm (sortedKeys m) (m.map Prod.fst) :=
      List.perm_insertionSort _ _
    have hin : h ∈ inputKeys es := (hmem h).mp (hperm.mem_iff.mp hh)
    rw [mem_inputKeys] at hin
    obtain ⟨e, he, t, p, ht, hp, hk⟩ := hin
    have := hlen e he t ht
    rw [hk, hourKey, List.length_take]
    omega
  have hcongr : ∀ h ∈ sortedKeys m,
      ((fun ph : PriceHour => ph.time_start.take 13) ∘ entryFor m) h = id h := by
    intro h hh
    have h13 := hlen13 h hh
    show ((h ++ (":00:00").data).take 13) = h
    rw [← h13]
    exact List.take_left h _
  rw [List.map_congr_left hcongr, List.map_id]
  exact List.sorted_insertionSort _ _

theorem divQ?_isSome {a b : ℚ} (hb : b ≠ 0) : (divQ? a b).isSome := by
  simp [divQ?, hb]

theorem mapM_option_isSome {α β : Type} (f : α → Option β) :
    ∀ (l : List α), (∀ x ∈ l, (f x).isSome) → (l.mapM f).isSome := by
  intro l
  induction l with
  | nil => intro _; rw [List.mapM_nil]; rfl
  | cons x xs ih =>
      intro h
      obtain ⟨b, hb⟩ := Option.isSome_iff_exists.mp (h x (by simp))
      obtain ⟨bs, hbs⟩ := Option.isSome_iff_exists.mp
        (ih (fun y hy => h y (by simp [hy])))
      rw [List.mapM_cons]
      show ((f x).bind fun b => (xs.mapM f).bind fun bs => some (b :: bs)).isSome
      rw [hb, Option.some_bind, hbs, Option.some_bind]
      rfl

theorem colorFor?_isSome (p a b : ℚ) : (colorFor? p a b).isSome := by
  rw [colorFor?, normFor?]
  split
  · next hab =>
      have hne : b - a ≠ 0 := sub_ne_zero_of_ne (ne_of_gt hab)
      simp [divQ?, hne]
  · simp

theorem displayPricesColors_isSome (a t m : List PriceHour) :
    (displayPricesColors a t m).isSome := by
  rw [displayPricesColors]
  cases hmap : a.map PriceHour.SEK_per_kWh with
  | nil => simp
  | cons p ps =>
      exact mapM_option_isSome _ (t ++ m)
        (fun e _ => colorFor?_isSome e.SEK_per_kWh (listMin p ps) (listMax p ps))

theorem listMin_le_listMax (p : ℚ) (ps : List ℚ) :
    listMin p ps ≤ listMax p ps := by
  rw [listMin, listMax]
  suffices h : ∀ (l : List ℚ) (a b : ℚ), a ≤ b → l.foldl min a ≤ l.foldl max b by
    exact h ps p p le_rfl
  intro l
  induction l with
  | nil => intro a b hab; simpa using hab
  | cons x xs ih =>
      intro a b hab
      exact ih _ _ (le_trans (min_le_left a x) (le_trans hab (le_max_left b x)))

theorem draw_gui_ratios_isSome (prices : List (ℕ × ℚ)) :
    (draw_gui_ratios prices).isSome := by
  rw [draw_gui_ratios]
  cases hmap : prices.map Prod.snd with
  | nil => simp
  | cons v vs =>
      have hden : listMax v vs - listMin v vs + 1/10 ≠ 0 := by
        have := listMin_le_listMax v vs
        intro hc
        nlinarith
      exact mapM_option_isSome _ prices (fun hp _ => divQ?_isSome hden)

theorem listMin_flat (ps : List ℚ) (c : ℚ) (h : ∀ x ∈ ps, x = c) :
    listMin c ps = c := by
  rw [listMin]
  induction ps with
  | nil => rfl
  | cons x xs ih =>
      have hx : x = c := h x (by simp)
      rw [List.foldl_cons, hx, min_self]
      exact ih (fun y hy => h y (by simp [hy]))

theorem listMax_flat (ps : List ℚ) (c : ℚ) (h : ∀ x ∈ ps, x = c) :
    listMax c ps = c := by
  rw [listMax]
  induction ps with
  | nil => rfl
  | cons x xs ih =>
      have hx : x = c := h x (by simp)
      rw [List.foldl_cons, hx, max_self]
      exact ih (fun y hy => h y (by simp [hy]))

theorem divQ?_zero (a : ℚ) : divQ? a 0 = none := by
  rw [divQ?]
  simp

theorem plotTicks_isSome (minP maxP : ℚ) : (plotTicks minP maxP).isSome := by
  refine mapM_option_isSome _ _ (fun i _ => ?_)
  obtain ⟨d, hd⟩ := Option.isSome_iff_exists.mp
    (divQ?_isSome (a := (i : ℚ) * (maxP - minP)) (b := 5) (by norm_num))
  simp [hd]

theorem plotSegs_flat_none (prices : List ℚ) (minP : ℚ)
    (hlen : 2 ≤ prices.length) : plotSegs prices minP minP = none := by
  obtain ⟨k, hk⟩ : ∃ k, prices.length - 1 = k + 1 :=
    ⟨prices.length - 2, by omega⟩
  rw [plotSegs, hk, List.range_succ_eq_map, List.mapM_cons]
  simp [divQ?_zero]

theorem plotSegs_short (prices : List ℚ) (mn mx : ℚ)
    (h : prices.length ≤ 1) : plotSegs prices mn mx = some [] := by
  have h0 : prices.length - 1 = 0 := by omega
  rw [plotSegs, h0]
  rfl

theorem displayPlot_flat (l : List PriceHour) (c : ℚ) (hlen : 2 ≤ l.length)
    (hflat : ∀ ph ∈ l, ph.SEK_per_kWh = c) : displayPlot l = none := by
  rw [displayPlot]
  cases hmap : l.map PriceHour.SEK_per_kWh with
  | nil =>
      have h0 : l.length = 0 := by simpa using congrArg List.length hmap
      omega
  | cons p ps =>
      have hall : ∀ x ∈ p :: ps, x = c := by
        rw [← hmap]
        intro x hx
        obtain ⟨ph, hph, hphx⟩ := List.mem_map.mp hx
        rw [← hphx]
        exact hflat ph hph
      have hp : p = c := hall p (by simp)
      have hps : ∀ x ∈ ps, x = c := fun x hx => hall x (by simp [hx])
      have hmin : listMin p ps = c := by rw [hp]; exact listMin_flat ps c hps
      have hmax : listMax p ps = c := by rw [hp]; exact listMax_flat ps c hps
      have hlen2 : 2 ≤ (p :: ps).length := by
        have h0 : l.length = (p :: ps).length := by
          simpa using congrArg List.length hmap
        omega
      show (do
          let ticks ← plotTicks (listMin p ps) (listMax p ps)
          let segs ← plotSegs (p :: ps) (listMin p ps) (listMax p ps)
          pure (ticks, segs)) = none
      rw [hmin, hmax, plotSegs_flat_none (p :: ps) c hlen2]
      cases htk : plotTicks c c <;> simp

theorem displayPlot_single (ph : PriceHour) :
    ∃ ticks, displayPlot [ph] = some (ticks, []) := by
  obtain ⟨t, ht⟩ := Option.isSome_iff_exists.mp
    (plotTicks_isSome (listMin ph.SEK_per_kWh []) (listMax ph.SEK_per_kWh []))
  refine ⟨t, ?_⟩
  show (do
      let ticks ← plotTicks (listMin ph.SEK_per_kWh []) (listMax ph.SEK_per_kWh [])
      let segs ← plotSegs [ph.SEK_per_kWh] (listMin ph.SEK_per_kWh [])
        (listMax ph.SEK_per_kWh [])
      pure (ticks, segs)) = some (t, [])
  simp [ht, plotSegs_short [ph.SEK_per_kWh] (listMin ph.SEK_per_kWh [])
    (listMax ph.SEK_per_kWh []) (by simp)]

theorem pyInt_of_nonneg {q : ℚ} (h : 0 ≤ q) : pyInt q = ⌊q⌋ := by
  rw [pyInt, if_neg (not_lt.mpr h)]

/-- C2 counterexample. The claim asserts the plot layout must not fault on a
flat price range, but `display_plot` divides by `max_p - min_p` with no guard:
on the two-entry flat series with both prices 1 it raises a division error
(`none`), refuting the claim as stated. -/
theorem displayPlot_faults_on_flat_pair :
    displayPlot [mkPH ("2024-01-20T21:00:00") 1, mkPH ("2024-01-20T22:00:00") 1] =
      none := by
  refine displayPlot_flat _ 1 (by simp) ?_
  intro ph hph
  rcases List.mem_cons.mp hph with h | h
  · rw [h]; rfl
  · rcases List.mem_cons.mp h with h2 | h2
    · rw [h2]; rfl
    · simp at h2

/-- C2 amended. When all prices are equal, the listing color computation falls
back to `norm = 0` (yielding the pure green `(0, 255, 0)` with no division),
and the bar layout of `power_plot.py` divides by `max_p - min_p + 0.1`, which
is never zero, so neither raises a division error; the plot layout, however,
divides by `max_p - min_p` unguarded and raises a division error on every
flat series with at least two entries. -/
theorem flat_price_range_rendering :
    (∀ p m : ℚ, colorFor? p m m = some (0, 255, 0)) ∧
    (∀ prices : List (ℕ × ℚ), (draw_gui_ratios prices).isSome) ∧
    (∀ (l : List PriceHour) (c : ℚ), 2 ≤ l.length →
      (∀ ph ∈ l, ph.SEK_per_kWh = c) → displayPlot l = none) := by
  refine ⟨fun p m => ?_, draw_gui_ratios_isSome, displayPlot_flat⟩
  rw [colorFor?, normFor?]
  simp only [gt_iff_lt, lt_irrefl, if_false]
  norm_num [colorRamp, pyInt]

/-- C2 amended witness at concrete inputs. -/
theorem flat_price_range_rendering_witness :
    colorFor? 5 2 2 = some (0, 255, 0) ∧
    (draw_gui_ratios [(0, 3)]).isSome ∧
    displayPlot [mkPH ("2024-01-20T21:00:00") 7, mkPH ("2024-01-20T22:00:00") 7] =
      none :=
  ⟨flat_price_range_rendering.1 5 2,
   flat_price_range_rendering.2.1 [(0, 3)],
   flat_price_range_rendering.2.2 _ 7 (by simp)
     (by
        intro ph hph
        rcases List.mem_cons.mp hph with h | h
        · rw [h]; rfl
        · rcases List.mem_cons.mp h with h2 | h2
          · rw [h2]; rfl
          · simp at h2)⟩

/-- C10 counterexample. The claim asserts `display_plot` raises a division
error on every single-entry series, but with one entry the segment loop runs
zero iterations (`range(len(prices) - 1) = range(0)`), so no division happens
and the call succeeds. -/
theorem displayPlot_single_entry_succeeds :
    (displayPlot [mkPH ("2024-01-20T21:00:00") 5]).isSome = true := by
  obtain ⟨t, ht⟩ := displayPlot_single (mkPH ("2024-01-20T21:00:00") 5)
  rw [ht]
  rfl

/-- C10 amended. `display_plot` is only defined for a non-empty series: the
empty series fails at `min`/`max`; a single-entry series runs zero plot-line
iterations (the `len(prices) - 1` denominator is never used) and succeeds,
drawing no segments. Callers must guard the empty case (and, per C2, the flat
multi-entry case) before invoking the plot view. -/
theorem displayPlot_empty_fails_single_succeeds :
    displayPlot [] = none ∧
    ∀ ph : PriceHour, ∃ ticks, displayPlot [ph] = some (ticks, []) :=
  ⟨rfl, displayPlot_single⟩

/-- C5 counterexample. At `norm = 1/1000` the code computes
`R = int(510 * 0.001) = int(0.51) = 0`, while the claimed formula
`R = round(510 * norm)` gives 1, so the claim's `round` is wrong. -/
theorem colorRamp_differs_from_round :
    colorRamp (1/1000) ≠ colorRampSpecRound (1/1000) ∧
    colorRamp (1/1000) = (0, 255, 0) ∧
    colorRampSpecRound (1/1000) = (1, 255, 0) := by
  have h1 : colorRamp (1/1000) = (0, 255, 0) := by
    rw [colorRamp, if_pos (by norm_num : (1/1000 : ℚ) ≤ 1/2),
      pyInt_of_nonneg (by norm_num)]
    norm_num
  have h2 : colorRampSpecRound (1/1000) = (1, 255, 0) := by
    rw [colorRampSpecRound, if_pos (by norm_num : (1/1000 : ℚ) ≤ 1/2), round_eq]
    norm_num
  refine ⟨?_, h1, h2⟩
  rw [h1, h2]
  intro hc
  cases hc

/-- C5 amended. On `[0, 1]`, the ramp computes with `int()` truncation (equal
to `floor` on non-negative values), not `round`: for `norm ≤ 0.5`,
`R = floor(510·norm)`, `G = 255`, `B = 0`; for `norm > 0.5`, `R = 255`,
`G = floor(255 − 510·(norm − 0.5))`, `B = 0`; the two branches are continuous
at `norm = 0.5`, both formulas giving `R = G = 255` there. -/
theorem colorRamp_floor_formula (norm : ℚ) (h0 : 0 ≤ norm) (h1 : norm ≤ 1) :
    (norm ≤ 1/2 → colorRamp norm = (⌊510 * norm⌋, 255, 0)) ∧
    (1/2 < norm → colorRamp norm = (255, ⌊255 - 510 * (norm - 1/2)⌋, 0)) ∧
    colorRamp (1/2) = (255, 255, 0) ∧
    ⌊(510 : ℚ) * (1/2)⌋ = 255 ∧ ⌊(255 : ℚ) - 510 * ((1:ℚ)/2 - 1/2)⌋ = 255 := by
  refine ⟨fun hle => ?_, fun hgt => ?_, ?_, by norm_num, by norm_num⟩
  · rw [colorRamp, if_pos hle, pyInt_of_nonneg (by positivity)]
  · have hnn : (0 : ℚ) ≤ 255 - 510 * (norm - 1/2) := by nlinarith
    rw [colorRamp, if_neg (not_le.mpr hgt), pyInt_of_nonneg hnn]
  · rw [colorRamp, if_pos (le_refl _), pyInt_of_nonneg (by norm_num)]
    norm_num

/-- C5 amended witness at `norm = 1/4` (and the midpoint). -/
theorem colorRamp_floor_formula_witness :
    colorRamp (1/4) = (127, 255, 0) ∧ colorRamp (1/2) = (255, 255, 0) := by
  have h := colorRamp_floor_formula (1/4) (by norm_num) (by norm_num)
  refine ⟨?_, h.2.2.1⟩
  rw [h.1 (by norm_num)]
  norm_num

theorem displayPlot_seriesAB :
    displayPlot seriesAB =
      some ([1, 6/5, 7/5, 8/5, 9/5, 2], [(60, 470, 480, 10)]) := by
  norm_num [displayPlot, plotTicks, plotSegs, listMin, listMax, divQ?, pyInt,
    seriesAB, mkPH, WIDTH, HEIGHT, List.mapM.loop,
    show List.range (5 + 1) = [0, 1, 2, 3, 4, 5] from rfl,
    show List.range ((2 : ℕ) - 1) = [0] from rfl]

theorem displayPricesColors_seriesAB :
    displayPricesColors seriesAB seriesAB [] =
      some [(0, 255, 0), (255, 0, 0)] := by
  norm_num [displayPricesColors, seriesAB, mkPH, colorFor?, normFor?, colorRamp,
    divQ?, pyInt, listMin, listMax, List.mapM.loop]

/-- C6. The touch-down at (100,100) released at (100,140) has squared
distance 40² (distance 40 > 30) and vertical-down displacement (dx = 0,
dy = 40 > 0, the 90-degree ray), so it classifies as a refresh swipe; a
touch-down and release at the same point has distance 0, classifies as a tap
(not a swipe), and one full down/up cycle toggles the view state exactly
once, `Listing → Plot` and `Plot → Listing`, with no refetch. -/
theorem gesture_tap_and_swipe_classification :
    ((140 - 100 : ℤ) ^ 2 + (100 - 100 : ℤ) ^ 2 = 40 ^ 2 ∧ (100 - 100 : ℤ) = 0 ∧
      (0 : ℤ) < 140 - 100) ∧
    isRefreshSwipe (100 - 100) (140 - 100) = true ∧
    isRefreshSwipe 0 0 = false ∧
    runCycle FetchResult.exn FetchResult.exn isoToday isoTomorrow lsListing
      (touchDown 100 100) (touchUp 100 100) =
      some ({ lsListing with state := ViewState.plot }, 0) ∧
    runCycle FetchResult.exn FetchResult.exn isoToday isoTomorrow lsPlotV
      (touchDown 100 100) (touchUp 100 100) =
      some ({ lsPlotV with state := ViewState.prices }, 0) := by
  refine ⟨by norm_num, by decide, by decide, ?_, ?_⟩
  · simp only [runCycle, loopStep, lsListing, lsPlotV, touchDown, touchUp]
    norm_num [displayPlot_seriesAB, displayPricesColors_seriesAB,
      show isRefreshSwipe 0 0 = false from by decide]
  · simp only [runCycle, loopStep, lsListing, lsPlotV, touchDown, touchUp]
    norm_num [displayPlot_seriesAB, displayPricesColors_seriesAB,
      show isRefreshSwipe 0 0 = false from by decide]

theorem get_data_failing {f : FetchResult}
    (hf : ∀ es, f ≠ FetchResult.success es) : get_data f = [] := by
  cases f with
  | success es => exact absurd rfl (hf es)
  | httpError c => rfl
  | exn => rfl

theorem partitionDay_nil (iso : Str) : partitionDay iso [] = [] := rfl

/-- A full down/up cycle whose release qualifies as a refresh swipe: starting
from an idle machine in either view, the cycle makes exactly one
`fetch_and_process_data` call, stores its result with the fresh day
partition, and ends in the `'prices'` (Listing) state with the touch state
cleared. -/
theorem runCycle_swipe (ft fm : FetchResult) (tI mI : Str) (ls : LoopState)
    (x0 y0 x1 y1 : ℤ) (nP : List PriceHour)
    (hlt : ls.last_touched = false)
    (hswipe : isRefreshSwipe (x1 - x0) (y1 - y0) = true)
    (hnP : fetch_and_process_data ft fm = some nP)
    (hplot : ls.state = ViewState.prices → (displayPlot ls.all_prices).isSome) :
    runCycle ft fm tI mI ls (touchDown x0 y0) (touchUp x1 y1) =
      some ({ state := ViewState.prices, last_touched := false, start := none,
              all_prices := nP, today_entries := partitionDay tI nP,
              tomorrow_entries := partitionDay mI nP }, 1) := by
  obtain ⟨cl, hcl⟩ := Option.isSome_iff_exists.mp
    (displayPricesColors_isSome nP (partitionDay tI nP) (partitionDay mI nP))
  cases hsv : ls.state with
  | prices =>
      obtain ⟨dp, hdp⟩ := Option.isSome_iff_exists.mp (hplot hsv)
      simp [runCycle, loopStep, touchDown, touchUp, hlt, hsv, hswipe, hnP,
        hdp, hcl]
  | plot =>
      obtain ⟨cl0, hcl0⟩ := Option.isSome_iff_exists.mp
        (displayPricesColors_isSome ls.all_prices ls.today_entries
          ls.tomorrow_entries)
      simp [runCycle, loopStep, touchDown, touchUp, hlt, hsv, hswipe, hnP,
        hcl, hcl0]

/-- C7. From any view state, a qualifying refresh swipe (distance > 30 px,
angle in the 60-120 degree downward sector) completes the down/up cycle in
the `'prices'` (Listing) state and triggers exactly one
refetch-and-reconsolidate cycle; the hypotheses ask that the refetched data
consolidates without error and (when starting in the Listing view) that the
down-edge plot render does not fault. -/
theorem refresh_swipe_resets_to_listing (ft fm : FetchResult) (tI mI : Str)
    (ls : LoopState) (x0 y0 x1 y1 : ℤ)
    (hlt : ls.last_touched = false)
    (hswipe : isRefreshSwipe (x1 - x0) (y1 - y0) = true)
    (hfetch : (fetch_and_process_data ft fm).isSome)
    (hplot : ls.state = ViewState.prices → (displayPlot ls.all_prices).isSome) :
    ∃ final : LoopState,
      runCycle ft fm tI mI ls (touchDown x0 y0) (touchUp x1 y1) =
        some (final, 1) ∧ final.state = ViewState.prices := by
  obtain ⟨nP, hnP⟩ := Option.isSome_iff_exists.mp hfetch
  exact ⟨_, runCycle_swipe ft fm tI mI ls x0 y0 x1 y1 nP hlt hswipe hnP hplot,
    rfl⟩

/-- C7 witness: a concrete swipe from the Plot view, (100,100) to (100,140),
with a successful one-sample refetch. -/
theorem refresh_swipe_resets_to_listing_witness :
    ∃ final : LoopState,
      runCycle (FetchResult.success [mkRaw ("2024-01-20T21:00 CET") 3])
        FetchResult.exn isoToday isoTomorrow lsPlotV (touchDown 100 100)
        (touchUp 100 140) = some (final, 1) ∧
      final.state = ViewState.prices := by
  refine refresh_swipe_resets_to_listing _ _ _ _ _ 100 100 100 140 rfl
    (by decide) ?_ ?_
  · rw [show fetch_and_process_data
        (FetchResult.success [mkRaw ("2024-01-20T21:00 CET") 3])
        FetchResult.exn =
        consolidate [mkRaw ("2024-01-20T21:00 CET") 3] from rfl]
    norm_num [consolidate, groupByHour, groupFrom, addEntry, sampleOf, mkRaw,
      addSample, hourKey, mean, lookupKey, List.insertionSort,
      List.orderedInsert]
  · intro hc
    cases hc

/-- C9 amended. When both fetches of a refresh-triggered cycle fail, the
machine does not crash: the cycle completes (`some`), makes its single
refetch, and ends in the Listing state — but the stored series is REPLACED by
the empty consolidated result (and the listing then shows "No data found");
the previously displayed series is not retained. -/
theorem failed_refresh_clears_series_without_crash (ft fm : FetchResult)
    (tI mI : Str) (ls : LoopState) (x0 y0 x1 y1 : ℤ)
    (hft : ∀ es, ft ≠ FetchResult.success es)
    (hfm : ∀ es, fm ≠ FetchResult.success es)
    (hlt : ls.last_touched = false)
    (hswipe : isRefreshSwipe (x1 - x0) (y1 - y0) = true)
    (hplot : ls.state = ViewState.prices → (displayPlot ls.all_prices).isSome) :
    runCycle ft fm tI mI ls (touchDown x0 y0) (touchUp x1 y1) =
      some ({ state := ViewState.prices, last_touched := false, start := none,
              all_prices := [], today_entries := [],
              tomorrow_entries := [] }, 1) := by
  have hnP : fetch_and_process_data ft fm = some [] := by
    rw [fetch_and_process_data, get_data_failing hft, get_data_failing hfm]
    rfl
  simpa [partitionDay_nil] using
    runCycle_swipe ft fm tI mI ls x0 y0 x1 y1 [] hlt hswipe hnP hplot

/-- C9 counterexample. The claim asserts a failed refresh fetch leaves the
previously displayed series intact, but on a concrete swipe cycle with both
fetches failing the stored series is replaced by the empty series: the final
state holds `[]`, not the previous two-entry series. -/
theorem failed_refresh_discards_previous_series :
    runCycle FetchResult.exn FetchResult.exn isoToday isoTomorrow lsListing
      (touchDown 100 100) (touchUp 100 140) = some (lsEmptyAfter, 1) ∧
    lsEmptyAfter.all_prices ≠ lsListing.all_prices := by
  constructor
  · have hnP : fetch_and_process_data FetchResult.exn FetchResult.exn =
        some [] := rfl
    have h := runCycle_swipe FetchResult.exn FetchResult.exn isoToday
      isoTomorrow lsListing 100 100 100 140 [] rfl (by decide) hnP
      (fun _ => by
        rw [show lsListing.all_prices = seriesAB from rfl, displayPlot_seriesAB]
        rfl)
    simpa [partitionDay_nil, lsEmptyAfter] using h
  · simp [lsEmptyAfter, lsListing, seriesAB]

/-- C9 amended witness: the concrete failed-refresh swipe cycle. -/
theorem failed_refresh_clears_series_without_crash_witness :
    runCycle FetchResult.exn FetchResult.exn isoToday isoTomorrow lsListing
      (touchDown 100 100) (touchUp 100 140) =
      some ({ state := ViewState.prices, last_touched := false, start := none,
              all_prices := [], today_entries := [],
              tomorrow_entries := [] }, 1) :=
  failed_refresh_clears_series_without_crash FetchResult.exn FetchResult.exn
    isoToday isoTomorrow lsListing 100 100 100 140
    (fun es h => FetchResult.noConfusion h)
    (fun es h => FetchResult.noConfusion h) rfl (by decide)
    (fun _ => by
      rw [show lsListing.all_prices = seriesAB from rfl, displayPlot_seriesAB]
      rfl)

theorem consolidate_isSome_of_wf (es : List RawEntry)
    (h : ∀ e ∈ es, wfEntry e) : (consolidate es).isSome := by
  rw [consolidate]
  obtain ⟨m, hm⟩ := Option.isSome_iff_exists.mp (groupFrom_isSome_of_wf es [] h)
  rw [groupByHour, hm]
  rfl

/-- C3 counterexample. The claim asserts a malformed sample is skipped and the
remaining samples are still processed, but consolidating a malformed sample
followed by a well-formed one aborts with a `KeyError` (`none`), while the
well-formed sample alone consolidates fine — so the malformed sample is not
skipped and processing does not continue. -/
theorem consolidate_not_skipping_malformed :
    consolidate [malEntry, mkRaw ("2024-01-20T21:00 CET") 2] = none ∧
    consolidate [mkRaw ("2024-01-20T21:00 CET") 2] ≠ none := by
  refine ⟨rfl, fun hc => ?_⟩
  have h := consolidate_isSome_of_wf [mkRaw ("2024-01-20T21:00 CET") 2]
    (by decide)
  rw [hc] at h
  cases h

/-- C3 amended. A malformed sample (missing timestamp or price field) raises
an uncaught `KeyError` during consolidation, aborting the processing of the
whole batch (no remaining sample is processed) rather than being skipped. -/
theorem consolidate_aborts_on_malformed (es : List RawEntry)
    (h : ∃ e ∈ es, ¬ wfEntry e) : consolidate es = none := by
  rw [consolidate, groupByHour, groupFrom_none_of_malformed es [] h]
  rfl

/-- C3 amended witness: one malformed sample aborts consolidation. -/
theorem consolidate_aborts_on_malformed_witness :
    consolidate [malEntry, mkRaw ("2024-01-20T21:00 CET") 2] = none :=
  consolidate_aborts_on_malformed _ ⟨malEntry, by simp, by decide⟩

/-- C8. When fetching one of the two dates fails (HTTP error or exception),
that date contributes zero samples: the pipeline output equals the
consolidation of the other date's data alone (in either order), and it still
succeeds whenever the other date's samples are well-formed — a single-date
failure never aborts the pipeline. -/
theorem single_date_fetch_failure_not_fatal (f g : FetchResult)
    (hf : ∀ es, f ≠ FetchResult.success es) :
    fetch_and_process_data f g = consolidate (get_data g) ∧
    fetch_and_process_data g f = consolidate (get_data g) ∧
    ((∀ e ∈ get_data g, wfEntry e) → (fetch_and_process_data f g).isSome ∧
      (fetch_and_process_data g f).isSome) := by
  have hfe : get_data f = [] := get_data_failing hf
  have h1 : fetch_and_process_data f g = consolidate (get_data g) := by
    rw [fetch_and_process_data, hfe, List.nil_append]
  have h2 : fetch_and_process_data g f = consolidate (get_data g) := by
    rw [fetch_and_process_data, hfe, List.append_nil]
  refine ⟨h1, h2, fun hwf => ?_⟩
  rw [h1, h2]
  exact ⟨consolidate_isSome_of_wf _ hwf, consolidate_isSome_of_wf _ hwf⟩

/-- C8 witness: today's fetch raises, tomorrow returns one well-formed
sample; the pipeline equals tomorrow's consolidation and succeeds. -/
theorem single_date_fetch_failure_not_fatal_witness :
    fetch_and_process_data FetchResult.exn
        (FetchResult.success [mkRaw ("2024-01-20T21:00 CET") 3]) =
      consolidate (get_data
        (FetchResult.success [mkRaw ("2024-01-20T21:00 CET") 3])) ∧
    (fetch_and_process_data FetchResult.exn
        (FetchResult.success [mkRaw ("2024-01-20T21:00 CET") 3])).isSome := by
  have h := single_date_fetch_failure_not_fatal FetchResult.exn
    (FetchResult.success [mkRaw ("2024-01-20T21:00 CET") 3])
    (fun es hc => FetchResult.noConfusion hc)
  exact ⟨h.1, (h.2.2 (by decide)).1⟩

theorem consolidate_example_eval : consolidate esExample = some outExample := by
  norm_num [consolidate, groupByHour, groupFrom, addEntry, sampleOf, addSample,
    hourKey, mean, lookupKey, List.insertionSort, List.orderedInsert,
    esExample, outExample, mkRaw, mkPH]
  rw [if_pos (by decide : (("2024-01-20T21").data : Str) ≤ ("2024-01-20T22").data)]
  norm_num
  rw [if_neg (by decide : ¬ ('1' : Char) = '2')]
  norm_num

/-- C1 witness: the worked example, two samples in hour 21 averaging to 1.5
and one in hour 22. -/
theorem consolidate_one_entry_per_hour_with_mean_witness :
    (outExample.map PriceHour.time_start).Nodup ∧
    (∀ k : Str, (∃ ph ∈ outExample, ph.time_start = k ++ (":00:00").data) ↔
      k ∈ inputKeys esExample) ∧
    (∀ ph ∈ outExample, ∃ k : Str, ph.time_start = k ++ (":00:00").data ∧
      k ∈ inputKeys esExample ∧
      ph.SEK_per_kWh = mean (samplesFor k esExample)) :=
  consolidate_one_entry_per_hour_with_mean esExample outExample
    consolidate_example_eval

/-- C4 witness: the worked example's output is sorted by hour key. -/
theorem consolidate_sorted_by_hour_key_witness :
    (outExample.map fun ph => ph.time_start.take 13).Sorted (· ≤ ·) :=
  consolidate_sorted_by_hour_key esExample outExample consolidate_example_eval
    (by
      intro e he t ht
      rcases (show e = mkRaw ("2024-01-20T21:00") 1 ∨
          e = mkRaw ("2024-01-20T21:30") 2 ∨
          e = mkRaw ("2024-01-20T22:00") 3 from by
        simpa [esExample] using he) with rfl | rfl | rfl <;>
        (simp only [mkRaw] at ht; injection ht with hh; rw [← hh]; decide))
